import Mathlib

set_option maxHeartbeats 1000000

/-!
Shallow embedding of `src/cybernetics.py` from the Cybernetics repository.

Modelling conventions:
* Python floats are modelled as real numbers (`ℝ`); `math.exp` is `Real.exp`.
* Python lists are `List`, dictionaries with a fixed key set are structures,
  and the assoc-style `primitive_metrics` dictionary is an association list
  with overwrite-on-insert semantics.
* The process-wide random source is made explicit: every value the Python
  code draws from `random` becomes an argument (see `RandChoice`).
* Timestamps (`datetime.now()`) never influence any control flow or value
  the claims are about, so they are dropped from records.
-/

/-- Polarity tags of `FeedbackType` (cybernetics.py lines 216-219). -/
inductive FeedbackType where
  | POSITIVE
  | NEGATIVE
  | NEUTRAL
deriving DecidableEq, Repr

/-- The accumulator loop of `Statement.get_feedback_score`
(cybernetics.py lines 235-243).  The first component is `total_weight`,
the second `weighted_sum`; the natural-number argument is the enumeration
index of the head entry and `n` is the full history length, passed as a
real because Python's `/` is true division. -/
noncomputable def scoreAux (n : ℝ) : List (FeedbackType × ℝ) → ℕ → ℝ × ℝ
  | [], _ => (0, 0)
  | (ft, strength) :: rest, i =>
    let weight := Real.exp ((i : ℝ) / n)
    let acc := scoreAux n rest (i + 1)
    (acc.1 + weight,
      match ft with
      | FeedbackType.POSITIVE => acc.2 + strength * weight
      | FeedbackType.NEGATIVE => acc.2 - strength * weight
      | FeedbackType.NEUTRAL => acc.2)

/-- `Statement.get_feedback_score` (cybernetics.py lines 232-244): empty
history scores `0.0`, otherwise the recency-weighted sum divided by the
total weight, guarded by `total_weight > 0` exactly as in the source. -/
noncomputable def get_feedback_score (h : List (FeedbackType × ℝ)) : ℝ :=
  if h.isEmpty then 0.0
  else
    let acc := scoreAux (h.length : ℝ) h 0
    if acc.1 > 0 then acc.2 / acc.1 else 0.0

/-- Signed contribution factor of one feedback entry: `POSITIVE` counts the
strength positively, `NEGATIVE` negatively, `NEUTRAL` not at all. -/
def signedStrength : FeedbackType × ℝ → ℝ
  | (FeedbackType.POSITIVE, s) => s
  | (FeedbackType.NEGATIVE, s) => -s
  | (FeedbackType.NEUTRAL, _) => 0

/-- The feedback score as the specification words it: entry `i` of `n`
gets weight `exp (i / n)`, contributions are `±strength·wᵢ` (`0` for
neutral entries), and the result is the contribution sum divided by the
weight sum. -/
noncomputable def feedbackScoreSpec (h : List (FeedbackType × ℝ)) : ℝ :=
  ((Finset.range h.length).sum fun i =>
      signedStrength (h.getD i (FeedbackType.NEUTRAL, 0)) *
        Real.exp ((i : ℝ) / (h.length : ℝ))) /
    ((Finset.range h.length).sum fun i => Real.exp ((i : ℝ) / (h.length : ℝ)))

/-- The controller-wide aggregate `system_state` dictionary
(cybernetics.py lines 303-307), with its fixed keys as fields. -/
@[ext]
structure SystemState where
  stability : ℝ
  complexity : ℝ
  adaptation_rate : ℝ

/-- The `generation_context` dictionary built in `SystemPrimitive.adapt`
(cybernetics.py lines 205-210) and consumed by the rule conditions.  The
Python `dict.get` defaults (`feedback_score` 0, `stability` 1.0,
`adaptation_rate` 0) never fire on this path because every key is always
present, so the fields are total. -/
structure GenContext where
  feedback_score : ℝ
  system_state : SystemState
  adaptation_rate : ℝ
  cycle : ℕ

/-- The `context` dictionary built in `process_feedback_cycle`
(cybernetics.py lines 344-348) and passed to `adapt`; the timestamp entry
is never read. -/
structure AdaptContext where
  system_state : SystemState
  cycle : ℕ

/-- The random values one call to `StatementGenerator.generate` draws from
the process-wide `random` source: `u` is the result of
`random.uniform(0, total_weight)`, `tmplPick` indexes the
`random.choice` over templates, and `varPick` the `random.choice` over
each placeholder's candidate values. -/
structure RandChoice where
  u : ℝ
  tmplPick : ℕ
  varPick : String → ℕ

/-- `GenerationRule` (cybernetics.py lines 18-25); the `variables`
dictionary is kept in insertion order as an association list (the field is
called `vars` because `variables` is a reserved word in Lean). -/
structure GenerationRule where
  name : String
  conditions : List (GenContext → Bool)
  templates : List String
  vars : List (String × List String)
  weight : ℝ

/-- `GenerationRule.should_apply` (cybernetics.py lines 27-29): all
conditions must hold on the context. -/
def GenerationRule.should_apply (rule : GenerationRule) (ctx : GenContext) : Bool :=
  rule.conditions.all fun c => c ctx

/-- Prefix test on character lists (used to model Python's `in` substring
operator). -/
def isPrefixList : List Char → List Char → Bool
  | [], _ => true
  | _ :: _, [] => false
  | a :: as, b :: bs => a == b && isPrefixList as bs

/-- Substring occurrence test on character lists. -/
def hasSubList (pat : List Char) : List Char → Bool
  | [] => isPrefixList pat []
  | c :: rest => isPrefixList pat (c :: rest) || hasSubList pat rest

/-- Python's `pat in s` substring test. -/
def strContains (s pat : String) : Bool :=
  hasSubList pat.toList s.toList

/-- `GenerationRule.generate_statement` (cybernetics.py lines 31-40).  The
source ignores its `context` argument.  `random.choice(templates)` is
modelled by the index `tmplPick` reduced modulo the template count, and
each placeholder substitution's `random.choice(values)` by
`varPick name` reduced modulo the candidate count; `{name}` placeholders
are replaced exactly when they occur in the chosen template. -/
def GenerationRule.generate_statement (rule : GenerationRule)
    (tmplPick : ℕ) (varPick : String → ℕ) : String :=
  let template := rule.templates.getD (tmplPick % rule.templates.length) ""
  rule.vars.foldl
    (fun t v =>
      if strContains t ("\x7b" ++ v.1 ++ "\x7d") then
        t.replace ("\x7b" ++ v.1 ++ "\x7d") (v.2.getD (varPick v.1 % v.2.length) "")
      else t)
    template

/-- The selection walk of `StatementGenerator.generate`
(cybernetics.py lines 60-67): accumulate weights in order and return the
first rule whose cumulative weight is `≥` the draw `r`; falling off the
end returns nothing, mirroring the trailing `return None`. -/
noncomputable def selectLoop (r : ℝ) : List GenerationRule → ℝ → Option GenerationRule
  | [], _ => none
  | rule :: rest, cum =>
    if r ≤ cum + rule.weight then some rule
    else selectLoop r rest (cum + rule.weight)

/-- `StatementGenerator` (cybernetics.py lines 42-49): the ordered rule
collection built by `add_rule` appends. -/
structure StatementGenerator where
  rules : List GenerationRule

/-- `StatementGenerator.generate` (cybernetics.py lines 51-67): filter the
applicable rules, return nothing when there are none, otherwise run the
weighted selection walk on the draw `rnd.u` and render the selected rule's
statement. -/
noncomputable def StatementGenerator.generate (g : StatementGenerator)
    (ctx : GenContext) (rnd : RandChoice) : Option String :=
  let applicable := g.rules.filter fun rule => rule.should_apply ctx
  if applicable.isEmpty then none
  else
    (selectLoop rnd.u applicable 0).map fun rule =>
      rule.generate_statement rnd.tmplPick rnd.varPick

/-- `total_weight` as computed in `StatementGenerator.generate`
(cybernetics.py line 58): the weight sum of the applicable rules. -/
noncomputable def totalWeight (g : StatementGenerator) (ctx : GenContext) : ℝ :=
  ((g.rules.filter fun rule => rule.should_apply ctx).map fun rule => rule.weight).sum

/-- Index-returning version of the selection walk, over the weight list of
the applicable rules. -/
noncomputable def selectIdx (r : ℝ) : List ℝ → ℝ → Option ℕ
  | [], _ => none
  | w :: rest, cum =>
    if r ≤ cum + w then some 0
    else (selectIdx r rest (cum + w)).map (· + 1)

/-- Cumulative weight through 0-based index `k`. -/
noncomputable def cumW (ws : List ℝ) (k : ℕ) : ℝ :=
  (ws.take (k + 1)).sum

/-- A concrete always-applicable rule, used to instantiate theorems. -/
def demoRule : GenerationRule :=
  { name := "always"
    conditions := [fun _ => true]
    templates := ["statement"]
    vars := []
    weight := 1 }

/-- A second concrete always-applicable rule with a different weight. -/
def demoRule2 : GenerationRule :=
  { name := "alsoAlways"
    conditions := []
    templates := ["other statement"]
    vars := []
    weight := 3 }

/-- A concrete generator holding the two demo rules. -/
def demoGenerator : StatementGenerator :=
  { rules := [demoRule, demoRule2] }

/-- A concrete generation context. -/
def demoGenContext : GenContext :=
  { feedback_score := 0
    system_state := { stability := 1, complexity := 0, adaptation_rate := 0 }
    adaptation_rate := 0
    cycle := 0 }

/-- The `metrics` dictionary of a `SystemPrimitive`
(cybernetics.py lines 76-81), with its fixed keys as fields. -/
@[ext]
structure Metrics where
  reliability : ℝ
  complexity : ℝ
  maintainability : ℝ
  adaptation_rate : ℝ

/-- One entry of `adaptation_history` (cybernetics.py lines 183-188);
the timestamp entry is never read and is dropped. -/
structure AdaptationRecord where
  feedback : ℝ
  context : AdaptContext
  previous_metrics : Metrics

/-- `SystemPrimitive._create_generator` (cybernetics.py lines 84-177):
the four hardwired rules, whose conditions close over the primitive's
name. -/
noncomputable def createGenerator (name : String) : StatementGenerator :=
  { rules :=
      [{ name := "efficiency_improvement"
         conditions :=
           [fun ctx => decide (ctx.feedback_score > 0.7),
            fun _ => strContains name.toLower "efficiency"]
         templates :=
           ["Optimize {resource} allocation using {algorithm}",
            "Implement {technique} for improved {aspect} efficiency",
            "Deploy {strategy} to enhance {resource} utilization"]
         vars :=
           [("resource", ["CPU", "memory", "network", "storage", "compute"]),
            ("algorithm", ["adaptive algorithms", "machine learning",
              "predictive models", "dynamic allocation"]),
            ("technique", ["load balancing", "caching", "parallel processing",
              "resource pooling"]),
            ("aspect", ["system", "runtime", "operational", "resource"]),
            ("strategy", ["automated scaling", "dynamic provisioning",
              "intelligent routing", "adaptive optimization"])]
         weight := 1.5 },
       { name := "security_enhancement"
         conditions :=
           [fun _ => strContains name.toLower "security",
            fun ctx => decide (ctx.system_state.stability < 0.8)]
         templates :=
           ["Implement {security_measure} to protect against {threat}",
            "Enhance {component} security using {technique}",
            "Deploy {security_system} for improved {protection_type}"]
         vars :=
           [("security_measure", ["encryption", "authentication",
              "access control", "intrusion detection"]),
            ("threat", ["unauthorized access", "data breaches",
              "malicious attacks", "system vulnerabilities"]),
            ("component", ["network", "data", "system", "application"]),
            ("technique", ["AI-powered monitoring", "blockchain",
              "zero-trust architecture", "behavioral analysis"]),
            ("security_system", ["anomaly detection", "threat prevention",
              "security validation", "compliance monitoring"]),
            ("protection_type", ["data protection", "system security",
              "access management", "threat prevention"])]
         weight := 1.2 },
       { name := "reliability_improvement"
         conditions :=
           [fun ctx => strContains name.toLower "reliability" ||
              decide (ctx.system_state.stability < 0.6)]
         templates :=
           ["Implement {mechanism} for improved {aspect} reliability",
            "Deploy {system} to ensure {component} stability",
            "Enhance {service} using {technique} for better reliability"]
         vars :=
           [("mechanism", ["failover", "redundancy", "load distribution",
              "health monitoring"]),
            ("aspect", ["system", "service", "operational", "component"]),
            ("system", ["automated recovery", "fault tolerance",
              "service resilience", "stability control"]),
            ("component", ["critical services", "core functions",
              "system components", "key operations"]),
            ("service", ["system monitoring", "error handling",
              "performance tracking", "health checks"]),
            ("technique", ["predictive maintenance", "automated recovery",
              "distributed redundancy", "adaptive failover"])]
         weight := 1.0 },
       { name := "adaptation_improvement"
         conditions := [fun ctx => decide (ctx.adaptation_rate > 0.5)]
         templates :=
           ["Implement {adaptation_type} for {component} adaptation",
            "Enhance {aspect} using {technique} adaptation",
            "Deploy {system} for improved {target} adaptability"]
         vars :=
           [("adaptation_type", ["dynamic", "intelligent", "automated",
              "predictive"]),
            ("component", ["system", "service", "resource", "process"]),
            ("aspect", ["performance", "efficiency", "reliability",
              "operation"]),
            ("technique", ["machine learning", "feedback-driven",
              "context-aware", "adaptive"]),
            ("system", ["learning algorithms", "adaptation mechanisms",
              "dynamic controls", "adaptive systems"]),
            ("target", ["system", "operational", "performance", "resource"])]
         weight := 0.8 }] }

/-- `SystemPrimitive` (cybernetics.py lines 69-82): adaptive unit with its
threshold, history, metrics and owned generator. -/
structure SystemPrimitive where
  name : String
  description : String
  adaptation_threshold : ℝ
  adaptation_history : List AdaptationRecord
  metrics : Metrics
  generator : StatementGenerator

/-- `SystemPrimitive.__init__` (cybernetics.py lines 71-82): threshold
0.7, empty history, the fixed starting metrics, and the generator built
from the primitive's name. -/
noncomputable def SystemPrimitive.create (name description : String) :
    SystemPrimitive :=
  { name := name
    description := description
    adaptation_threshold := 0.7
    adaptation_history := []
    metrics :=
      { reliability := 0.9
        complexity := 0.6
        maintainability := 0.8
        adaptation_rate := 0.0 }
    generator := createGenerator name }

/-- `SystemPrimitive.adapt` (cybernetics.py lines 179-214): a no-op below
the threshold; above it, record the adaptation, update `adaptation_rate`
by the exponential moving average, clamp-update the three quality metrics,
and delegate statement generation to the owned generator with the derived
generation context. -/
noncomputable def SystemPrimitive.adapt (p : SystemPrimitive) (feedback : ℝ)
    (context : AdaptContext) (rnd : RandChoice) :
    SystemPrimitive × Option String :=
  if |feedback| > p.adaptation_threshold then
    let learning_rate : ℝ := 0.1
    let record : AdaptationRecord :=
      { feedback := feedback
        context := context
        previous_metrics := p.metrics }
    let newRate :=
      p.metrics.adaptation_rate * (1 - learning_rate) +
        |feedback| * learning_rate
    let upd := fun m : ℝ =>
      if feedback > 0 then min 1.0 (m * (1 + learning_rate * feedback))
      else max 0.0 (m * (1 + learning_rate * feedback))
    let newMetrics : Metrics :=
      { reliability := upd p.metrics.reliability
        complexity := upd p.metrics.complexity
        maintainability := upd p.metrics.maintainability
        adaptation_rate := newRate }
    let p2 := { p with
      metrics := newMetrics
      adaptation_history := p.adaptation_history ++ [record] }
    let genCtx : GenContext :=
      { feedback_score := feedback
        system_state := context.system_state
        adaptation_rate := newRate
        cycle := context.cycle }
    (p2, p2.generator.generate genCtx rnd)
  else (p, none)

/-- Iterated `adapt` calls: each list entry supplies one call's feedback,
context and drawn random values. -/
noncomputable def adaptSeq :
    List (ℝ × AdaptContext × RandChoice) → SystemPrimitive → SystemPrimitive
  | [], p => p
  | (f, ctx, rnd) :: rest, p => adaptSeq rest (p.adapt f ctx rnd).1

/-- All four metric entries lie in `[0, 1]`. -/
def metricsIn01 (m : Metrics) : Prop :=
  0 ≤ m.reliability ∧ m.reliability ≤ 1 ∧
  0 ≤ m.complexity ∧ m.complexity ≤ 1 ∧
  0 ≤ m.maintainability ∧ m.maintainability ≤ 1 ∧
  0 ≤ m.adaptation_rate ∧ m.adaptation_rate ≤ 1

/-- A concrete adaptation context used to instantiate theorems. -/
def demoAdaptContext : AdaptContext :=
  { system_state := { stability := 1, complexity := 0, adaptation_rate := 0 }
    cycle := 0 }

/-- A concrete bundle of drawn random values. -/
def demoRand : RandChoice :=
  { u := 0
    tmplPick := 0
    varPick := fun _ => 0 }

/-- `Statement` (cybernetics.py lines 221-227): content, attached
primitives, feedback history and originating-statement label; the
timestamp field is never read and is dropped. -/
structure Statement where
  content : String
  system_primitives : List SystemPrimitive
  feedback_history : List (FeedbackType × ℝ)
  generated_from : Option String

/-- The `cycle_metrics` dictionary of `process_feedback_cycle`
(cybernetics.py lines 331-336); `primitive_metrics` is a string-keyed
dictionary kept as an insertion-ordered association list. -/
structure CycleMetrics where
  processed_statements : ℕ
  adaptations : ℕ
  average_feedback : ℝ
  primitive_metrics : List (String × Metrics)

/-- Python dictionary assignment `d[key] = value`: overwrite in place when
the key exists, append otherwise. -/
def dictInsert : List (String × Metrics) → String → Metrics →
    List (String × Metrics)
  | [], key, value => [(key, value)]
  | (k2, v2) :: rest, key, value =>
    if k2 = key then (key, value) :: rest
    else (k2, v2) :: dictInsert rest key value

/-- `CyberneticSystem` state (cybernetics.py lines 298-308). -/
structure CyberneticSystem where
  statements : List Statement
  feedback_threshold : ℝ
  adaptation_cycles : ℕ
  system_state : SystemState
  new_statements : List (ℕ × Statement)

/-- `CyberneticSystem.__init__` (cybernetics.py lines 299-308). -/
noncomputable def initSystem : CyberneticSystem :=
  { statements := []
    feedback_threshold := 0.6
    adaptation_cycles := 0
    system_state := { stability := 1.0, complexity := 0.0, adaptation_rate := 0.0 }
    new_statements := [] }

/-- `_create_primitive_for_statement` (cybernetics.py lines 317-328): the
first keyword, in the dictionary's insertion order, contained in the
lowered content picks the primitive. -/
noncomputable def create_primitive_for_statement (content : String) :
    SystemPrimitive :=
  if strContains content.toLower "efficiency" then
    SystemPrimitive.create "Efficiency_Primitive" "Optimizes system efficiency"
  else if strContains content.toLower "security" then
    SystemPrimitive.create "Security_Primitive" "Enhances system security"
  else if strContains content.toLower "reliability" then
    SystemPrimitive.create "Reliability_Primitive" "Improves system reliability"
  else if strContains content.toLower "adaptation" then
    SystemPrimitive.create "Adaptation_Primitive" "Handles system adaptation"
  else
    SystemPrimitive.create "Generic_Primitive" "Handles general system operations"

/-- `add_statement` (cybernetics.py lines 310-315): build the statement,
attach its keyword primitive, append it to the collection and return it. -/
noncomputable def add_statement (sys : CyberneticSystem) (content : String)
    (generated_from : Option String) : CyberneticSystem × Statement :=
  let primitive := create_primitive_for_statement content
  let statement : Statement :=
    { content := content
      system_primitives := [primitive]
      feedback_history := []
      generated_from := generated_from }
  ({ sys with statements := sys.statements ++ [statement] }, statement)

/-- The inner primitive loop of `process_feedback_cycle`
(cybernetics.py lines 350-360): adapt each primitive of the statement in
order, appending any generated statement to the live system and to the
`new_statements` log, counting adaptations, and recording the
post-adaptation metrics snapshot under the primitive's name.  The
returned primitive list carries the primitives' updated states (Python
mutates them in place); the counter indexes per-invocation random
draws. -/
noncomputable def adaptPrims (stmtContent : String) (score : ℝ)
    (ctx : AdaptContext) (orc : ℕ → RandChoice) :
    List SystemPrimitive → CyberneticSystem → CycleMetrics → ℕ →
      List SystemPrimitive × CyberneticSystem × CycleMetrics × ℕ
  | [], sys, met, k => ([], sys, met, k)
  | prim :: rest, sys, met, k =>
    match prim.adapt score ctx (orc k) with
    | (prim2, res) =>
      let sys2 :=
        match res with
        | some newContent =>
          match add_statement sys newContent (some stmtContent) with
          | (sysA, newStmt) =>
            { sysA with new_statements :=
                sysA.new_statements ++ [(sysA.adaptation_cycles, newStmt)] }
        | none => sys
      let met2 := { met with
        adaptations := met.adaptations + 1
        primitive_metrics :=
          dictInsert met.primitive_metrics prim2.name prim2.metrics }
      match adaptPrims stmtContent score ctx orc rest sys2 met2 (k + 1) with
      | (prims2, sys3, met3, k3) => (prim2 :: prims2, sys3, met3, k3)

/-- The statement loop of `process_feedback_cycle`
(cybernetics.py lines 340-363), iterating over the snapshot
(`self.statements.copy()`) taken at entry while threading the live
system; `i` is the position of the current statement in the live
collection, whose entry is replaced by its updated version (Python shares
the mutated object instead). -/
noncomputable def cycleLoop (orc : ℕ → RandChoice) :
    List Statement → ℕ → CyberneticSystem → CycleMetrics → ℝ → ℕ →
      CyberneticSystem × CycleMetrics × ℝ
  | [], _, sys, met, totalFb, _ => (sys, met, totalFb)
  | stmt :: rest, i, sys, met, totalFb, k =>
    let score := get_feedback_score stmt.feedback_history
    let step : CyberneticSystem × CycleMetrics × ℕ :=
      if |score| > sys.feedback_threshold then
        let ctx : AdaptContext :=
          { system_state := sys.system_state
            cycle := sys.adaptation_cycles }
        match adaptPrims stmt.content score ctx orc stmt.system_primitives
            sys met k with
        | (prims2, sys1, met1, k1) =>
          ({ sys1 with statements :=
              sys1.statements.set i { stmt with system_primitives := prims2 } },
            met1, k1)
      else (sys, met, k)
    match step with
    | (sys2, met2, k2) =>
      cycleLoop orc rest (i + 1) sys2
        { met2 with processed_statements := met2.processed_statements + 1 }
        (totalFb + score) k2

/-- `_update_system_state` (cybernetics.py lines 373-387): decay-and-clamp
stability when any statement was processed, fold the adaptation density
into complexity, and set the adaptation rate; Python's `max(1, n)` on
integers is `max 1 n` on naturals, cast before the true division. -/
noncomputable def update_system_state (sys : CyberneticSystem)
    (met : CycleMetrics) : CyberneticSystem :=
  let stability2 :=
    if met.processed_statements > 0 then
      max 0.1 (min 1.0 (sys.system_state.stability *
        (1 - 0.1 * |met.average_feedback|)))
    else sys.system_state.stability
  let complexity_factor :=
    (met.adaptations : ℝ) / ((max 1 sys.statements.length : ℕ) : ℝ)
  let complexity2 :=
    sys.system_state.complexity * 0.9 + complexity_factor * 0.1
  let adaptation_rate2 :=
    (met.adaptations : ℝ) / ((max 1 met.processed_statements : ℕ) : ℝ)
  { sys with system_state :=
      { stability := stability2
        complexity := complexity2
        adaptation_rate := adaptation_rate2 } }

/-- `process_feedback_cycle` (cybernetics.py lines 330-371): run the
statement loop on the entry snapshot, average the accumulated feedback
over the processed count when it is positive, fold the cycle metrics into
the system state and advance the cycle counter. -/
noncomputable def process_feedback_cycle (sys : CyberneticSystem)
    (orc : ℕ → RandChoice) : CyberneticSystem × CycleMetrics :=
  match cycleLoop orc sys.statements 0 sys
      { processed_statements := 0
        adaptations := 0
        average_feedback := 0.0
        primitive_metrics := [] } 0.0 0 with
  | (sys1, met1, totalFb) =>
    let met :=
      if met1.processed_statements > 0 then
        { met1 with
          average_feedback := totalFb / (met1.processed_statements : ℝ) }
      else met1
    let sys2 := update_system_state sys1 met
    ({ sys2 with adaptation_cycles := sys2.adaptation_cycles + 1 }, met)

/-- `Statement.add_feedback` (cybernetics.py lines 229-230) applied to the
statement at index `i` of the collection. -/
def setFeedbackAt : List Statement → ℕ → FeedbackType → ℝ → List Statement
  | [], _, _, _ => []
  | s :: rest, 0, ft, strength =>
    { s with feedback_history := s.feedback_history ++ [(ft, strength)] } :: rest
  | s :: rest, n + 1, ft, strength => s :: setFeedbackAt rest n ft strength

/-- Mutating a held statement's feedback history mutates the collection's
entry, since Python shares the object. -/
def add_feedback_at (sys : CyberneticSystem) (i : ℕ) (ft : FeedbackType)
    (strength : ℝ) : CyberneticSystem :=
  { sys with statements := setFeedbackAt sys.statements i ft strength }

/-- Controller states reachable through the public mutating surface: the
fresh system, `add_statement`, `add_feedback` on a held statement, and
`process_feedback_cycle` with any drawn randomness. -/
inductive Reachable : CyberneticSystem → Prop where
  | init : Reachable initSystem
  | add (sys : CyberneticSystem) (content : String) (gf : Option String) :
      Reachable sys → Reachable (add_statement sys content gf).1
  | feedback (sys : CyberneticSystem) (i : ℕ) (ft : FeedbackType)
      (strength : ℝ) :
      Reachable sys → Reachable (add_feedback_at sys i ft strength)
  | cycle (sys : CyberneticSystem) (orc : ℕ → RandChoice) :
      Reachable sys → Reachable (process_feedback_cycle sys orc).1

theorem scoreAux_eq (n : ℝ) (h : List (FeedbackType × ℝ)) (j : ℕ) :
    scoreAux n h j =
      (((Finset.range h.length).sum fun i => Real.exp (((j + i : ℕ) : ℝ) / n)),
        ((Finset.range h.length).sum fun i =>
          signedStrength (h.getD i (FeedbackType.NEUTRAL, 0)) *
            Real.exp (((j + i : ℕ) : ℝ) / n))) := by
  induction h generalizing j with
  | nil => simp [scoreAux]
  | cons p rest ih =>
    obtain ⟨ft, s⟩ := p
    have key := ih (j + 1)
    simp only [scoreAux, key, List.length_cons]
    rw [Prod.mk.injEq]
    constructor
    · rw [Finset.sum_range_succ']
      simp only [List.getD_cons_succ, List.getD_cons_zero, Nat.add_zero]
      have hnat : ∀ i : ℕ, j + 1 + i = j + (i + 1) := fun i => by omega
      simp only [hnat]
    · rw [Finset.sum_range_succ']
      simp only [List.getD_cons_succ, List.getD_cons_zero, Nat.add_zero]
      have hnat : ∀ i : ℕ, j + 1 + i = j + (i + 1) := fun i => by omega
      simp only [hnat]
      cases ft <;> simp [signedStrength] <;> ring

theorem scoreAux_fst_pos (n : ℝ) (h : List (FeedbackType × ℝ)) (j : ℕ)
    (hne : h ≠ []) : 0 < (scoreAux n h j).1 := by
  rw [scoreAux_eq]
  exact Finset.sum_pos (fun i _ => Real.exp_pos _)
    (Finset.nonempty_range_iff.mpr fun hl => hne (List.length_eq_zero.mp hl))

theorem get_feedback_score_eq_div (h : List (FeedbackType × ℝ)) (hne : h ≠ []) :
    get_feedback_score h =
      (scoreAux (h.length : ℝ) h 0).2 / (scoreAux (h.length : ℝ) h 0).1 := by
  have hpos := scoreAux_fst_pos (h.length : ℝ) h 0 hne
  have hni : ¬ h.isEmpty = true := by simpa using hne
  simp only [get_feedback_score]
  rw [if_neg hni, if_pos hpos]

/-- C3: `get_feedback_score` is a pure function of the feedback history:
the empty history scores exactly `0`; a non-empty history of length `n`
scores the sum over entries of `±strength·exp (i / n)` (zero for neutral
entries) divided by the sum of the weights `exp (i / n)`; in particular a
single `(POSITIVE, 0.5)` entry scores exactly `0.5`, and the history
`[(POSITIVE, 1), (NEGATIVE, 1)]` scores
`(e^0 - e^(1/2)) / (e^0 + e^(1/2))`. -/
theorem feedback_score_formula :
    get_feedback_score [] = 0 ∧
    (∀ h : List (FeedbackType × ℝ), h ≠ [] →
      get_feedback_score h = feedbackScoreSpec h) ∧
    get_feedback_score [(FeedbackType.POSITIVE, 0.5)] = 0.5 ∧
    get_feedback_score [(FeedbackType.POSITIVE, 1), (FeedbackType.NEGATIVE, 1)] =
      (Real.exp 0 - Real.exp (1 / 2)) / (Real.exp 0 + Real.exp (1 / 2)) := by
  refine ⟨by norm_num [get_feedback_score], ?_, ?_, ?_⟩
  · intro h hne
    rw [get_feedback_score_eq_div h hne, scoreAux_eq]
    simp [feedbackScoreSpec]
  · rw [get_feedback_score_eq_div _ (by simp)]
    norm_num [scoreAux, Real.exp_zero]
  · rw [get_feedback_score_eq_div _ (by simp)]
    norm_num [scoreAux, Real.exp_zero]
    ring_nf

/-- Witness for C3's general-formula conjunct at a concrete history. -/
theorem feedback_score_formula_witness :
    get_feedback_score [(FeedbackType.POSITIVE, 0.5)] =
      feedbackScoreSpec [(FeedbackType.POSITIVE, 0.5)] :=
  feedback_score_formula.2.1 _ (by simp)

theorem scoreAux_snd_abs_le (n : ℝ) (h : List (FeedbackType × ℝ)) (j : ℕ)
    (hs : ∀ p ∈ h, 0 ≤ p.2 ∧ p.2 ≤ 1) :
    |(scoreAux n h j).2| ≤ (scoreAux n h j).1 := by
  induction h generalizing j with
  | nil => simp [scoreAux]
  | cons p rest ih =>
    obtain ⟨ft, s⟩ := p
    obtain ⟨hs0, hs1⟩ := hs (ft, s) (List.mem_cons_self _ _)
    have hrest := ih (j + 1) fun q hq => hs q (List.mem_cons_of_mem _ hq)
    have hw : 0 < Real.exp ((j : ℝ) / n) := Real.exp_pos _
    have hsw : s * Real.exp ((j : ℝ) / n) ≤ Real.exp ((j : ℝ) / n) := by nlinarith
    have hsw0 : 0 ≤ s * Real.exp ((j : ℝ) / n) := mul_nonneg hs0 hw.le
    cases ft with
    | POSITIVE =>
      simp only [scoreAux]
      calc |(scoreAux n rest (j + 1)).2 + s * Real.exp ((j : ℝ) / n)|
          ≤ |(scoreAux n rest (j + 1)).2| + |s * Real.exp ((j : ℝ) / n)| :=
            abs_add _ _
        _ ≤ (scoreAux n rest (j + 1)).1 + Real.exp ((j : ℝ) / n) := by
            rw [abs_of_nonneg hsw0]; exact add_le_add hrest hsw
    | NEGATIVE =>
      simp only [scoreAux]
      calc |(scoreAux n rest (j + 1)).2 - s * Real.exp ((j : ℝ) / n)|
          ≤ |(scoreAux n rest (j + 1)).2| + |s * Real.exp ((j : ℝ) / n)| :=
            abs_sub _ _
        _ ≤ (scoreAux n rest (j + 1)).1 + Real.exp ((j : ℝ) / n) := by
            rw [abs_of_nonneg hsw0]; exact add_le_add hrest hsw
    | NEUTRAL =>
      simp only [scoreAux]
      calc |(scoreAux n rest (j + 1)).2| ≤ (scoreAux n rest (j + 1)).1 := hrest
        _ ≤ (scoreAux n rest (j + 1)).1 + Real.exp ((j : ℝ) / n) := by linarith

/-- C10: when every entry's strength lies in `[0, 1]`, the feedback score
lies in `[-1, 1]`: the signed weighted sum is dominated in absolute value
by the positive weight total it is divided by. -/
theorem feedback_score_in_unit (h : List (FeedbackType × ℝ))
    (hs : ∀ p ∈ h, 0 ≤ p.2 ∧ p.2 ≤ 1) :
    -1 ≤ get_feedback_score h ∧ get_feedback_score h ≤ 1 := by
  by_cases hne : h = []
  · subst hne
    constructor <;> simp [get_feedback_score] <;> norm_num
  · have htw := scoreAux_fst_pos (h.length : ℝ) h 0 hne
    have habs := scoreAux_snd_abs_le (h.length : ℝ) h 0 hs
    rw [get_feedback_score_eq_div h hne]
    have hone : |(scoreAux (h.length : ℝ) h 0).2 / (scoreAux (h.length : ℝ) h 0).1| ≤ 1 := by
      rw [abs_div, abs_of_pos htw]
      exact (div_le_one htw).mpr habs
    exact abs_le.mp hone

/-- Witness for C10 at a concrete single-entry history. -/
theorem feedback_score_in_unit_witness :
    -1 ≤ get_feedback_score [(FeedbackType.NEGATIVE, 1)] ∧
      get_feedback_score [(FeedbackType.NEGATIVE, 1)] ≤ 1 :=
  feedback_score_in_unit _ (by
    intro p hp
    simp only [List.mem_singleton] at hp
    subst hp
    norm_num)

theorem selectLoop_isSome (r : ℝ) (rules : List GenerationRule) (cum : ℝ)
    (hne : rules ≠ [])
    (hr : r ≤ cum + ((rules.map fun rule => rule.weight).sum)) :
    (selectLoop r rules cum).isSome = true := by
  induction rules generalizing cum with
  | nil => exact absurd rfl hne
  | cons rule rest ih =>
    simp only [selectLoop]
    by_cases hc : r ≤ cum + rule.weight
    · rw [if_pos hc]; rfl
    · rw [if_neg hc]
      simp only [List.map_cons, List.sum_cons] at hr
      have hrest : rest ≠ [] := by
        intro h0
        rw [h0] at hr
        simp only [List.map_nil, List.sum_nil, add_zero] at hr
        exact hc hr
      exact ih (cum + rule.weight) hrest (by linarith)

theorem selectLoop_mem (r : ℝ) (rules : List GenerationRule) (cum : ℝ)
    (rule : GenerationRule) (hsel : selectLoop r rules cum = some rule) :
    rule ∈ rules := by
  induction rules generalizing cum with
  | nil => simp [selectLoop] at hsel
  | cons a rest ih =>
    simp only [selectLoop] at hsel
    by_cases hc : r ≤ cum + a.weight
    · rw [if_pos hc] at hsel
      cases hsel
      exact List.mem_cons_self _ _
    · rw [if_neg hc] at hsel
      exact List.mem_cons_of_mem _ (ih _ hsel)

/-- C1: provided the uniform draw is at most the applicable weight total
(as `random.uniform(0, total_weight)` guarantees), `generate` returns
nothing exactly when no rule's conditions all hold on the context, and
when some rule is applicable the result is the generated statement of an
applicable rule — absence of applicable rules is the only no-result
path. -/
theorem generate_none_iff_no_applicable (g : StatementGenerator)
    (ctx : GenContext) (rnd : RandChoice)
    (hr : rnd.u ≤ totalWeight g ctx) :
    (g.generate ctx rnd = none ↔
      ∀ rule ∈ g.rules, rule.should_apply ctx = false) ∧
    ((∃ rule ∈ g.rules, rule.should_apply ctx = true) →
      ∃ rule ∈ g.rules, rule.should_apply ctx = true ∧
        g.generate ctx rnd =
          some (rule.generate_statement rnd.tmplPick rnd.varPick)) := by
  by_cases hnil : (g.rules.filter fun rule => rule.should_apply ctx) = []
  · have hgen : g.generate ctx rnd = none := by
      simp [StatementGenerator.generate, hnil]
    have hall : ∀ rule ∈ g.rules, rule.should_apply ctx = false := by
      intro rule hmem
      have hnp := List.filter_eq_nil_iff.mp hnil rule hmem
      simpa using hnp
    refine ⟨⟨fun _ => hall, fun _ => hgen⟩, ?_⟩
    rintro ⟨rule, hmem, htrue⟩
    rw [hall rule hmem] at htrue
    cases htrue
  · have hsome := selectLoop_isSome rnd.u
      (g.rules.filter fun rule => rule.should_apply ctx) 0 hnil
      (by simpa [totalWeight] using hr)
    obtain ⟨rule, hsel⟩ := Option.isSome_iff_exists.mp hsome
    have hgen : g.generate ctx rnd =
        some (rule.generate_statement rnd.tmplPick rnd.varPick) := by
      have hemp : (g.rules.filter fun rule => rule.should_apply ctx).isEmpty = false := by
        simpa [List.isEmpty_iff] using hnil
      simp [StatementGenerator.generate, hemp, hsel]
    have hmem := selectLoop_mem _ _ _ _ hsel
    rw [List.mem_filter] at hmem
    obtain ⟨hmem', htrue⟩ := hmem
    refine ⟨⟨?_, ?_⟩, ?_⟩
    · intro hnone
      rw [hgen] at hnone
      cases hnone
    · intro hall
      rw [hall rule hmem'] at htrue
      cases htrue
    · intro _
      exact ⟨rule, hmem', htrue, hgen⟩

/-- Witness for C1 at a concrete generator, context and draw. -/
theorem generate_none_iff_no_applicable_witness :
    (demoGenerator.generate demoGenContext ⟨2, 0, fun _ => 0⟩ = none ↔
      ∀ rule ∈ demoGenerator.rules, rule.should_apply demoGenContext = false) ∧
    ((∃ rule ∈ demoGenerator.rules, rule.should_apply demoGenContext = true) →
      ∃ rule ∈ demoGenerator.rules, rule.should_apply demoGenContext = true ∧
        demoGenerator.generate demoGenContext ⟨2, 0, fun _ => 0⟩ =
          some (rule.generate_statement 0 fun _ => 0)) :=
  generate_none_iff_no_applicable demoGenerator demoGenContext ⟨2, 0, fun _ => 0⟩
    (by norm_num [totalWeight, demoGenerator, demoRule, demoRule2,
      GenerationRule.should_apply, List.filter])

theorem cumW_zero (w : ℝ) (rest : List ℝ) : cumW (w :: rest) 0 = w := by
  simp [cumW]

theorem cumW_cons_succ (w : ℝ) (rest : List ℝ) (k : ℕ) :
    cumW (w :: rest) (k + 1) = w + cumW rest k := by
  simp [cumW, List.take_succ_cons]

theorem cumW_succ (ws : List ℝ) (k : ℕ) (hk : k + 1 < ws.length) :
    cumW ws (k + 1) = cumW ws k + ws.getD (k + 1) 0 := by
  simp only [cumW]
  rw [List.sum_take_succ ws (k + 1) hk, List.getD_eq_getElem ws 0 hk]

theorem cumW_pos (ws : List ℝ) (hpos : ∀ w ∈ ws, 0 < w) (hne : ws ≠ [])
    (k : ℕ) : 0 < cumW ws k := by
  apply List.sum_pos
  · intro w hw
    exact hpos w (List.take_subset _ _ hw)
  · cases ws with
    | nil => exact absurd rfl hne
    | cons a rest => simp [List.take_succ_cons]

theorem cumW_strict (ws : List ℝ) (hpos : ∀ w ∈ ws, 0 < w) :
    ∀ i, i < ws.length → ∀ j, j < i → cumW ws j < cumW ws i := by
  intro i
  induction i with
  | zero => intro _ j hj; omega
  | succ k ihk =>
    intro hk1 j hj
    have hstep : cumW ws k < cumW ws (k + 1) := by
      rw [cumW_succ ws k hk1]
      have hmem : ws.getD (k + 1) 0 ∈ ws := by
        rw [List.getD_eq_getElem ws 0 hk1]
        exact List.getElem_mem _
      linarith [hpos _ hmem]
    rcases Nat.lt_succ_iff_lt_or_eq.mp hj with hj2 | hj2
    · exact lt_trans (ihk (by omega) j hj2) hstep
    · rw [hj2]; exact hstep

theorem cumW_le_sum (ws : List ℝ) (h0 : ∀ w ∈ ws, 0 ≤ w) (k : ℕ) :
    cumW ws k ≤ ws.sum := by
  have hsplit := List.sum_take_add_sum_drop ws (k + 1)
  have hd : 0 ≤ (ws.drop (k + 1)).sum :=
    List.sum_nonneg fun w hw => h0 w (List.drop_subset _ _ hw)
  simp only [cumW]
  linarith

theorem cumW_last (ws : List ℝ) (hne : ws ≠ []) :
    cumW ws (ws.length - 1) = ws.sum := by
  simp only [cumW]
  have hlen : ws.length - 1 + 1 = ws.length :=
    Nat.succ_pred_eq_of_pos (List.length_pos.mpr hne)
  rw [hlen, List.take_length]

theorem cumW_getD_zero (ws : List ℝ) (hne : ws ≠ []) :
    cumW ws 0 = ws.getD 0 0 := by
  cases ws with
  | nil => exact absurd rfl hne
  | cons w rest => simp [cumW_zero]

theorem selectIdx_eq_some_iff (r : ℝ) (ws : List ℝ) (cum : ℝ) (i : ℕ) :
    selectIdx r ws cum = some i ↔
      (i < ws.length ∧ r ≤ cum + cumW ws i ∧ ∀ j < i, cum + cumW ws j < r) := by
  induction ws generalizing cum i with
  | nil => simp [selectIdx]
  | cons w rest ih =>
    simp only [selectIdx]
    by_cases hc : r ≤ cum + w
    · rw [if_pos hc]
      cases i with
      | zero =>
        simp only [cumW_zero]
        constructor
        · intro _
          exact ⟨by simp, hc, by omega⟩
        · intro _; trivial
      | succ k =>
        constructor
        · intro hcontra; cases hcontra
        · rintro ⟨_, _, hall⟩
          have h0 := hall 0 (Nat.succ_pos k)
          rw [cumW_zero] at h0
          exact absurd hc (not_le.mpr h0)
    · rw [if_neg hc]
      cases i with
      | zero =>
        constructor
        · intro hmap
          obtain ⟨a, _, ha1⟩ := Option.map_eq_some'.mp hmap
          omega
        · rintro ⟨_, h0, _⟩
          rw [cumW_zero] at h0
          exact absurd h0 hc
      | succ k =>
        rw [Option.map_eq_some']
        constructor
        · rintro ⟨a, ha, hak⟩
          have hak2 : a = k := by omega
          subst hak2
          obtain ⟨hlen, hle, hall⟩ := (ih (cum + w) a).mp ha
          refine ⟨by simp; omega, ?_, ?_⟩
          · rw [cumW_cons_succ]; linarith
          · intro j hj
            cases j with
            | zero => rw [cumW_zero]; linarith [not_le.mp hc]
            | succ m =>
              rw [cumW_cons_succ]
              have hm := hall m (by omega)
              linarith
        · rintro ⟨hlen, hle, hall⟩
          refine ⟨k, (ih (cum + w) k).mpr ⟨by simp at hlen; omega, ?_, ?_⟩, rfl⟩
          · rw [cumW_cons_succ] at hle; linarith
          · intro m hm
            have hm1 := hall (m + 1) (by omega)
            rw [cumW_cons_succ] at hm1
            linarith

theorem selectLoop_eq_selectIdx (r : ℝ) (rules : List GenerationRule) (cum : ℝ) :
    selectLoop r rules cum =
      (selectIdx r (rules.map fun rule => rule.weight) cum).bind
        fun k => rules[k]? := by
  induction rules generalizing cum with
  | nil => simp [selectLoop, selectIdx]
  | cons a rest ih =>
    simp only [selectLoop, selectIdx, List.map_cons]
    by_cases hc : r ≤ cum + a.weight
    · rw [if_pos hc, if_pos hc]
      simp
    · rw [if_neg hc, if_neg hc, ih (cum + a.weight)]
      cases selectIdx r (rest.map fun rule => rule.weight) (cum + a.weight) with
      | none => simp
      | some k => simp

theorem generate_eq_selectIdx (g : StatementGenerator) (ctx : GenContext)
    (rnd : RandChoice) :
    g.generate ctx rnd =
      (selectIdx rnd.u
          ((g.rules.filter fun rule => rule.should_apply ctx).map
            fun rule => rule.weight) 0).bind
        fun k => ((g.rules.filter fun rule => rule.should_apply ctx)[k]?).map
          fun rule => rule.generate_statement rnd.tmplPick rnd.varPick := by
  simp only [StatementGenerator.generate]
  by_cases hnil : (g.rules.filter fun rule => rule.should_apply ctx) = []
  · rw [hnil]
    simp [selectIdx]
  · rw [if_neg (by simpa [List.isEmpty_iff] using hnil)]
    rw [selectLoop_eq_selectIdx]
    cases selectIdx rnd.u
        ((g.rules.filter fun rule => rule.should_apply ctx).map
          fun rule => rule.weight) 0 with
    | none => simp
    | some k =>
      simp only [Option.some_bind]

theorem selectIdx_char_zero (ws : List ℝ) (h0 : 0 < ws.length) (r : ℝ) :
    selectIdx r ws 0 = some 0 ↔ r ≤ cumW ws 0 := by
  rw [selectIdx_eq_some_iff]
  constructor
  · rintro ⟨_, hle, _⟩
    simpa using hle
  · intro hle
    exact ⟨h0, by simpa using hle, by omega⟩

theorem selectIdx_char_succ (ws : List ℝ) (hpos : ∀ w ∈ ws, 0 < w)
    (k : ℕ) (hi : k + 1 < ws.length) (r : ℝ) :
    selectIdx r ws 0 = some (k + 1) ↔
      cumW ws k < r ∧ r ≤ cumW ws (k + 1) := by
  rw [selectIdx_eq_some_iff]
  constructor
  · rintro ⟨_, hle, hall⟩
    exact ⟨by simpa using hall k (by omega), by simpa using hle⟩
  · rintro ⟨hgt, hle⟩
    refine ⟨hi, by simpa using hle, ?_⟩
    intro j hj
    rcases Nat.lt_succ_iff_lt_or_eq.mp hj with h2 | h2
    · have hmono := cumW_strict ws hpos k (by omega) j h2
      simpa using lt_of_le_of_lt hmono.le hgt
    · rw [h2]; simpa using hgt

theorem selectIdx_volume (ws : List ℝ) (hpos : ∀ w ∈ ws, 0 < w)
    (i : ℕ) (hi : i < ws.length) :
    MeasureTheory.volume
        {r : ℝ | r ∈ Set.Ico (0 : ℝ) ws.sum ∧ selectIdx r ws 0 = some i} =
      ENNReal.ofReal (ws.getD i 0) := by
  have hne : ws ≠ [] := by
    intro h0
    rw [h0] at hi
    simp at hi
  have h0w : ∀ w ∈ ws, 0 ≤ w := fun w hw => (hpos w hw).le
  cases i with
  | zero =>
    have hgd : cumW ws 0 = ws.getD 0 0 := cumW_getD_zero ws hne
    by_cases hlen : ws.length = 1
    · have htot : cumW ws 0 = ws.sum := by
        have hlast := cumW_last ws hne
        rw [hlen] at hlast
        simpa using hlast
      have hset : {r : ℝ | r ∈ Set.Ico (0 : ℝ) ws.sum ∧ selectIdx r ws 0 = some 0}
          = Set.Ico (0 : ℝ) ws.sum := by
        ext r
        simp only [Set.mem_setOf_eq, Set.mem_Ico,
          selectIdx_char_zero ws (by omega) r]
        constructor
        · rintro ⟨⟨ha, hb⟩, _⟩
          exact ⟨ha, hb⟩
        · rintro ⟨ha, hb⟩
          exact ⟨⟨ha, hb⟩, by linarith [htot]⟩
      rw [hset, Real.volume_Ico, ← hgd, htot, sub_zero]
    · have hlt : cumW ws 0 < ws.sum := by
        have hmono := cumW_strict ws hpos (ws.length - 1)
          (by omega) 0 (by omega)
        rw [cumW_last ws hne] at hmono
        exact hmono
      have hset : {r : ℝ | r ∈ Set.Ico (0 : ℝ) ws.sum ∧ selectIdx r ws 0 = some 0}
          = Set.Icc (0 : ℝ) (cumW ws 0) := by
        ext r
        simp only [Set.mem_setOf_eq, Set.mem_Ico, Set.mem_Icc,
          selectIdx_char_zero ws (by omega) r]
        constructor
        · rintro ⟨⟨ha, _⟩, hc⟩
          exact ⟨ha, hc⟩
        · rintro ⟨ha, hc⟩
          exact ⟨⟨ha, by linarith⟩, hc⟩
      rw [hset, Real.volume_Icc, ← hgd, sub_zero]
  | succ k =>
    have hck : 0 < cumW ws k := cumW_pos ws hpos hne k
    have hstep : cumW ws (k + 1) = cumW ws k + ws.getD (k + 1) 0 :=
      cumW_succ ws k hi
    by_cases hlast : k + 1 = ws.length - 1
    · have hcT : cumW ws (k + 1) = ws.sum := by
        rw [hlast, cumW_last ws hne]
      have hset : {r : ℝ | r ∈ Set.Ico (0 : ℝ) ws.sum ∧ selectIdx r ws 0 = some (k + 1)}
          = Set.Ioo (cumW ws k) ws.sum := by
        ext r
        simp only [Set.mem_setOf_eq, Set.mem_Ico, Set.mem_Ioo,
          selectIdx_char_succ ws hpos k hi r]
        constructor
        · rintro ⟨⟨_, hb⟩, ⟨hc, _⟩⟩
          exact ⟨hc, hb⟩
        · rintro ⟨hc, hb⟩
          exact ⟨⟨by linarith, hb⟩, hc, by linarith [hcT]⟩
      rw [hset, Real.volume_Ioo, ← hcT, hstep]
      ring_nf
    · have hlt2 : cumW ws (k + 1) < ws.sum := by
        have hmono := cumW_strict ws hpos (ws.length - 1)
          (by omega) (k + 1) (by omega)
        rw [cumW_last ws hne] at hmono
        exact hmono
      have hset : {r : ℝ | r ∈ Set.Ico (0 : ℝ) ws.sum ∧ selectIdx r ws 0 = some (k + 1)}
          = Set.Ioc (cumW ws k) (cumW ws (k + 1)) := by
        ext r
        simp only [Set.mem_setOf_eq, Set.mem_Ico, Set.mem_Ioc,
          selectIdx_char_succ ws hpos k hi r]
        constructor
        · rintro ⟨⟨_, _⟩, ⟨hc, hd⟩⟩
          exact ⟨hc, hd⟩
        · rintro ⟨hc, hd⟩
          exact ⟨⟨by linarith, by linarith⟩, hc, hd⟩
      rw [hset, Real.volume_Ioc, hstep]
      ring_nf

/-- C2: with positive rule weights, writing `ws` for the weight list of
the applicable rules, `generate`'s selection is exactly `selectIdx`, which
picks index `i` precisely when the draw `r` first satisfies
`r ≤ cumulative weight of i`; the Lebesgue measure of the draws in
`[0, total_weight)` that select applicable rule `i` is `weight_i`, and
normalized by the length of the draw interval it is
`weight_i / total_weight`. -/
theorem weighted_selection_measure (g : StatementGenerator) (ctx : GenContext)
    (ws : List ℝ)
    (hws : ws = (g.rules.filter fun rule => rule.should_apply ctx).map
      fun rule => rule.weight)
    (hpos : ∀ rule ∈ g.rules, 0 < rule.weight)
    (i : ℕ) (hi : i < ws.length) :
    (∀ rnd : RandChoice,
      g.generate ctx rnd = (selectIdx rnd.u ws 0).bind
        fun k => ((g.rules.filter fun rule => rule.should_apply ctx)[k]?).map
          fun rule => rule.generate_statement rnd.tmplPick rnd.varPick) ∧
    (∀ r : ℝ, selectIdx r ws 0 = some i ↔
      (r ≤ cumW ws i ∧ ∀ j < i, cumW ws j < r)) ∧
    MeasureTheory.volume
        {r : ℝ | r ∈ Set.Ico (0 : ℝ) (totalWeight g ctx) ∧
          selectIdx r ws 0 = some i} =
      ENNReal.ofReal (ws.getD i 0) ∧
    MeasureTheory.volume
        {r : ℝ | r ∈ Set.Ico (0 : ℝ) (totalWeight g ctx) ∧
          selectIdx r ws 0 = some i} /
      MeasureTheory.volume (Set.Ico (0 : ℝ) (totalWeight g ctx)) =
      ENNReal.ofReal (ws.getD i 0 / totalWeight g ctx) := by
  have hwpos : ∀ w ∈ ws, 0 < w := by
    subst hws
    intro w hw
    rw [List.mem_map] at hw
    obtain ⟨rule, hrule, hrw⟩ := hw
    rw [List.mem_filter] at hrule
    rw [← hrw]
    exact hpos rule hrule.1
  have htot : totalWeight g ctx = ws.sum := by
    rw [hws]
    rfl
  have hne : ws ≠ [] := by
    intro h0
    rw [h0] at hi
    simp at hi
  have hsum : 0 < ws.sum := List.sum_pos ws hwpos hne
  refine ⟨?_, ?_, ?_, ?_⟩
  · intro rnd
    rw [generate_eq_selectIdx, hws]
  · intro r
    rw [selectIdx_eq_some_iff]
    constructor
    · rintro ⟨_, hle, hall⟩
      exact ⟨by simpa using hle, fun j hj => by simpa using hall j hj⟩
    · rintro ⟨hle, hall⟩
      exact ⟨hi, by simpa using hle, fun j hj => by simpa using hall j hj⟩
  · rw [htot]
    exact selectIdx_volume ws hwpos i hi
  · rw [htot, Real.volume_Ico, sub_zero, selectIdx_volume ws hwpos i hi]
    exact (ENNReal.ofReal_div_of_pos hsum).symm

/-- Witness for C2 at the two-rule demo generator (weights 1 and 3),
selecting the rule at index 1. -/
theorem weighted_selection_measure_witness :
    (∀ rnd : RandChoice,
      demoGenerator.generate demoGenContext rnd =
        (selectIdx rnd.u [(1 : ℝ), 3] 0).bind
          fun k => ((demoGenerator.rules.filter
              fun rule => rule.should_apply demoGenContext)[k]?).map
            fun rule => rule.generate_statement rnd.tmplPick rnd.varPick) ∧
    (∀ r : ℝ, selectIdx r [(1 : ℝ), 3] 0 = some 1 ↔
      (r ≤ cumW [(1 : ℝ), 3] 1 ∧ ∀ j < 1, cumW [(1 : ℝ), 3] j < r)) ∧
    MeasureTheory.volume
        {r : ℝ | r ∈ Set.Ico (0 : ℝ) (totalWeight demoGenerator demoGenContext) ∧
          selectIdx r [(1 : ℝ), 3] 0 = some 1} =
      ENNReal.ofReal (([(1 : ℝ), 3]).getD 1 0) ∧
    MeasureTheory.volume
        {r : ℝ | r ∈ Set.Ico (0 : ℝ) (totalWeight demoGenerator demoGenContext) ∧
          selectIdx r [(1 : ℝ), 3] 0 = some 1} /
      MeasureTheory.volume (Set.Ico (0 : ℝ) (totalWeight demoGenerator demoGenContext)) =
      ENNReal.ofReal (([(1 : ℝ), 3]).getD 1 0 /
        totalWeight demoGenerator demoGenContext) :=
  weighted_selection_measure demoGenerator demoGenContext [(1 : ℝ), 3]
    (by simp [demoGenerator, demoRule, demoRule2, GenerationRule.should_apply])
    (by
      intro rule hrule
      simp only [demoGenerator, List.mem_cons, List.not_mem_nil, or_false] at hrule
      rcases hrule with h | h
      · rw [h]; norm_num [demoRule]
      · rw [h]; norm_num [demoRule2])
    1 (by norm_num)

theorem adapt_notabove (p : SystemPrimitive) (feedback : ℝ)
    (ctx : AdaptContext) (rnd : RandChoice)
    (h : ¬ |feedback| > p.adaptation_threshold) :
    p.adapt feedback ctx rnd = (p, none) := by
  unfold SystemPrimitive.adapt
  rw [if_neg h]

theorem adapt_metrics_above (p : SystemPrimitive) (feedback : ℝ)
    (ctx : AdaptContext) (rnd : RandChoice)
    (h : |feedback| > p.adaptation_threshold) :
    (p.adapt feedback ctx rnd).1.metrics =
      { reliability :=
          if feedback > 0 then
            min 1.0 (p.metrics.reliability * (1 + 0.1 * feedback))
          else max 0.0 (p.metrics.reliability * (1 + 0.1 * feedback))
        complexity :=
          if feedback > 0 then
            min 1.0 (p.metrics.complexity * (1 + 0.1 * feedback))
          else max 0.0 (p.metrics.complexity * (1 + 0.1 * feedback))
        maintainability :=
          if feedback > 0 then
            min 1.0 (p.metrics.maintainability * (1 + 0.1 * feedback))
          else max 0.0 (p.metrics.maintainability * (1 + 0.1 * feedback))
        adaptation_rate :=
          p.metrics.adaptation_rate * (1 - 0.1) + |feedback| * 0.1 } := by
  unfold SystemPrimitive.adapt
  rw [if_pos h]

/-- C4: whenever `|feedback| ≤ adaptation_threshold`, `adapt` is a
complete no-op — the primitive comes back unchanged (no history append,
no metric change) and nothing is returned; and constructed primitives
carry the default threshold 0.7. -/
theorem adapt_noop_below_threshold :
    (∀ (p : SystemPrimitive) (feedback : ℝ) (ctx : AdaptContext)
      (rnd : RandChoice), |feedback| ≤ p.adaptation_threshold →
        p.adapt feedback ctx rnd = (p, none)) ∧
    (∀ name description : String,
      (SystemPrimitive.create name description).adaptation_threshold = 0.7) := by
  constructor
  · intro p feedback ctx rnd hle
    exact adapt_notabove p feedback ctx rnd (not_lt.mpr hle)
  · intro name description
    rfl

/-- Witness for C4 at feedback 0.5 on a freshly constructed primitive. -/
theorem adapt_noop_below_threshold_witness :
    (SystemPrimitive.create "demo" "demo primitive").adapt 0.5
        demoAdaptContext demoRand =
      (SystemPrimitive.create "demo" "demo primitive", none) :=
  adapt_noop_below_threshold.1 _ _ _ _
    (by norm_num [SystemPrimitive.create, abs_of_nonneg])

theorem clamp_update_mem_unit (m f : ℝ) (h0 : 0 ≤ m) (h1 : m ≤ 1) :
    0 ≤ (if f > 0 then min 1.0 (m * (1 + 0.1 * f))
      else max 0.0 (m * (1 + 0.1 * f))) ∧
      (if f > 0 then min 1.0 (m * (1 + 0.1 * f))
        else max 0.0 (m * (1 + 0.1 * f))) ≤ 1 := by
  by_cases hf : f > 0
  · rw [if_pos hf]
    have hx : 0 ≤ m * (1 + 0.1 * f) := mul_nonneg h0 (by nlinarith)
    constructor
    · exact le_min (by norm_num) hx
    · calc min 1.0 (m * (1 + 0.1 * f)) ≤ 1.0 := min_le_left _ _
        _ = 1 := by norm_num
  · rw [if_neg hf]
    push_neg at hf
    have hmf : m * f ≤ 0 := mul_nonpos_of_nonneg_of_nonpos h0 hf
    constructor
    · exact le_max_iff.mpr (Or.inl (by norm_num))
    · apply max_le
      · norm_num
      · nlinarith

/-- C5: each of reliability, complexity and maintainability stays in
`[0, 1]` through `adapt` for every real feedback value when it starts in
`[0, 1]`; above the threshold, positive feedback multiplies the metric by
`(1 + 0.1·feedback)` capping at exactly `1.0`, and non-positive feedback
multiplies and floors at exactly `0.0`. -/
theorem quality_metrics_clamped (p : SystemPrimitive) (feedback : ℝ)
    (ctx : AdaptContext) (rnd : RandChoice)
    (hr0 : 0 ≤ p.metrics.reliability) (hr1 : p.metrics.reliability ≤ 1)
    (hc0 : 0 ≤ p.metrics.complexity) (hc1 : p.metrics.complexity ≤ 1)
    (hm0 : 0 ≤ p.metrics.maintainability) (hm1 : p.metrics.maintainability ≤ 1) :
    (0 ≤ (p.adapt feedback ctx rnd).1.metrics.reliability ∧
      (p.adapt feedback ctx rnd).1.metrics.reliability ≤ 1) ∧
    (0 ≤ (p.adapt feedback ctx rnd).1.metrics.complexity ∧
      (p.adapt feedback ctx rnd).1.metrics.complexity ≤ 1) ∧
    (0 ≤ (p.adapt feedback ctx rnd).1.metrics.maintainability ∧
      (p.adapt feedback ctx rnd).1.metrics.maintainability ≤ 1) ∧
    (|feedback| > p.adaptation_threshold →
      ((feedback > 0 →
        (p.adapt feedback ctx rnd).1.metrics.reliability =
          min 1.0 (p.metrics.reliability * (1 + 0.1 * feedback)) ∧
        (p.adapt feedback ctx rnd).1.metrics.complexity =
          min 1.0 (p.metrics.complexity * (1 + 0.1 * feedback)) ∧
        (p.adapt feedback ctx rnd).1.metrics.maintainability =
          min 1.0 (p.metrics.maintainability * (1 + 0.1 * feedback))) ∧
      (¬ feedback > 0 →
        (p.adapt feedback ctx rnd).1.metrics.reliability =
          max 0.0 (p.metrics.reliability * (1 + 0.1 * feedback)) ∧
        (p.adapt feedback ctx rnd).1.metrics.complexity =
          max 0.0 (p.metrics.complexity * (1 + 0.1 * feedback)) ∧
        (p.adapt feedback ctx rnd).1.metrics.maintainability =
          max 0.0 (p.metrics.maintainability * (1 + 0.1 * feedback))))) := by
  by_cases h : |feedback| > p.adaptation_threshold
  · rw [adapt_metrics_above p feedback ctx rnd h]
    refine ⟨clamp_update_mem_unit _ _ hr0 hr1,
      clamp_update_mem_unit _ _ hc0 hc1,
      clamp_update_mem_unit _ _ hm0 hm1, ?_⟩
    intro _
    constructor
    · intro hf
      exact ⟨by simp [hf], by simp [hf], by simp [hf]⟩
    · intro hf
      exact ⟨by simp [hf], by simp [hf], by simp [hf]⟩
  · rw [adapt_notabove p feedback ctx rnd h]
    exact ⟨⟨hr0, hr1⟩, ⟨hc0, hc1⟩, ⟨hm0, hm1⟩, fun habove => absurd habove h⟩

/-- Witness for C5 at feedback 1 on a freshly constructed primitive. -/
theorem quality_metrics_clamped_witness :
    (0 ≤ ((SystemPrimitive.create "w5" "d").adapt 1 demoAdaptContext
        demoRand).1.metrics.reliability ∧
      ((SystemPrimitive.create "w5" "d").adapt 1 demoAdaptContext
        demoRand).1.metrics.reliability ≤ 1) ∧
    (0 ≤ ((SystemPrimitive.create "w5" "d").adapt 1 demoAdaptContext
        demoRand).1.metrics.complexity ∧
      ((SystemPrimitive.create "w5" "d").adapt 1 demoAdaptContext
        demoRand).1.metrics.complexity ≤ 1) ∧
    (0 ≤ ((SystemPrimitive.create "w5" "d").adapt 1 demoAdaptContext
        demoRand).1.metrics.maintainability ∧
      ((SystemPrimitive.create "w5" "d").adapt 1 demoAdaptContext
        demoRand).1.metrics.maintainability ≤ 1) ∧
    (|(1 : ℝ)| > (SystemPrimitive.create "w5" "d").adaptation_threshold →
      (((1 : ℝ) > 0 →
        ((SystemPrimitive.create "w5" "d").adapt 1 demoAdaptContext
            demoRand).1.metrics.reliability =
          min 1.0 ((SystemPrimitive.create "w5" "d").metrics.reliability *
            (1 + 0.1 * 1)) ∧
        ((SystemPrimitive.create "w5" "d").adapt 1 demoAdaptContext
            demoRand).1.metrics.complexity =
          min 1.0 ((SystemPrimitive.create "w5" "d").metrics.complexity *
            (1 + 0.1 * 1)) ∧
        ((SystemPrimitive.create "w5" "d").adapt 1 demoAdaptContext
            demoRand).1.metrics.maintainability =
          min 1.0 ((SystemPrimitive.create "w5" "d").metrics.maintainability *
            (1 + 0.1 * 1))) ∧
      (¬ (1 : ℝ) > 0 →
        ((SystemPrimitive.create "w5" "d").adapt 1 demoAdaptContext
            demoRand).1.metrics.reliability =
          max 0.0 ((SystemPrimitive.create "w5" "d").metrics.reliability *
            (1 + 0.1 * 1)) ∧
        ((SystemPrimitive.create "w5" "d").adapt 1 demoAdaptContext
            demoRand).1.metrics.complexity =
          max 0.0 ((SystemPrimitive.create "w5" "d").metrics.complexity *
            (1 + 0.1 * 1)) ∧
        ((SystemPrimitive.create "w5" "d").adapt 1 demoAdaptContext
            demoRand).1.metrics.maintainability =
          max 0.0 ((SystemPrimitive.create "w5" "d").metrics.maintainability *
            (1 + 0.1 * 1))))) :=
  quality_metrics_clamped (SystemPrimitive.create "w5" "d") 1
    demoAdaptContext demoRand
    (by norm_num [SystemPrimitive.create])
    (by norm_num [SystemPrimitive.create])
    (by norm_num [SystemPrimitive.create])
    (by norm_num [SystemPrimitive.create])
    (by norm_num [SystemPrimitive.create])
    (by norm_num [SystemPrimitive.create])

/-- C6 counterexample: the claim fails for arbitrary real feedback — one
`adapt` call with feedback 15 from the construction's initial metrics
drives `adaptation_rate` to 1.5, outside `[0, 1]`. -/
theorem adaptation_rate_escapes_unit :
    (adaptSeq [(15, demoAdaptContext, demoRand)]
        (SystemPrimitive.create "demo6" "d")).metrics.adaptation_rate = 1.5 ∧
    ¬ (adaptSeq [(15, demoAdaptContext, demoRand)]
        (SystemPrimitive.create "demo6" "d")).metrics.adaptation_rate ≤ 1 := by
  have h : (adaptSeq [(15, demoAdaptContext, demoRand)]
      (SystemPrimitive.create "demo6" "d")).metrics.adaptation_rate = 1.5 := by
    show ((SystemPrimitive.create "demo6" "d").adapt 15 demoAdaptContext
      demoRand).1.metrics.adaptation_rate = 1.5
    rw [adapt_metrics_above _ _ _ _ (by norm_num [SystemPrimitive.create])]
    norm_num [SystemPrimitive.create]
  exact ⟨h, by rw [h]; norm_num⟩

theorem adapt_preserves_metricsIn01 (p : SystemPrimitive) (f : ℝ)
    (ctx : AdaptContext) (rnd : RandChoice) (hf : |f| ≤ 1)
    (hp : metricsIn01 p.metrics) :
    metricsIn01 ((p.adapt f ctx rnd).1.metrics) := by
  obtain ⟨h1, h2, h3, h4, h5, h6, h7, h8⟩ := hp
  by_cases h : |f| > p.adaptation_threshold
  · rw [adapt_metrics_above p f ctx rnd h]
    have hb0 : (0 : ℝ) ≤ |f| := abs_nonneg f
    refine ⟨(clamp_update_mem_unit _ _ h1 h2).1,
      (clamp_update_mem_unit _ _ h1 h2).2,
      (clamp_update_mem_unit _ _ h3 h4).1,
      (clamp_update_mem_unit _ _ h3 h4).2,
      (clamp_update_mem_unit _ _ h5 h6).1,
      (clamp_update_mem_unit _ _ h5 h6).2, ?_, ?_⟩
    · simp only
      nlinarith
    · simp only
      nlinarith
  · rw [adapt_notabove p f ctx rnd h]
    exact ⟨h1, h2, h3, h4, h5, h6, h7, h8⟩

/-- C6 amended: all four metric entries (reliability, complexity,
maintainability and adaptation_rate) remain in `[0, 1]` after any
sequence of `adapt` calls whose feedback values all satisfy
`|feedback| ≤ 1`, from any starting metrics in `[0, 1]` (the
construction's initial metrics in particular). -/
theorem metrics_in_unit_under_bounded_feedback
    (steps : List (ℝ × AdaptContext × RandChoice))
    (hsteps : ∀ s ∈ steps, |s.1| ≤ 1)
    (p : SystemPrimitive) (hp : metricsIn01 p.metrics) :
    metricsIn01 (adaptSeq steps p).metrics := by
  induction steps generalizing p with
  | nil => exact hp
  | cons s rest ih =>
    obtain ⟨f, ctx, rnd⟩ := s
    simp only [adaptSeq]
    exact ih (fun q hq => hsteps q (List.mem_cons_of_mem _ hq)) _
      (adapt_preserves_metricsIn01 p f ctx rnd
        (by simpa using hsteps (f, ctx, rnd) (List.mem_cons_self _ _)) hp)

/-- Witness for C6's amended claim at one feedback-0.8 step on a freshly
constructed primitive. -/
theorem metrics_in_unit_under_bounded_feedback_witness :
    metricsIn01 (adaptSeq [(0.8, demoAdaptContext, demoRand)]
      (SystemPrimitive.create "demo6w" "d")).metrics :=
  metrics_in_unit_under_bounded_feedback _
    (by
      intro s hs
      simp only [List.mem_singleton] at hs
      rw [hs]
      norm_num [abs_of_nonneg])
    _ (by norm_num [SystemPrimitive.create, metricsIn01])

theorem adaptPrims_facts (stmtContent : String) (score : ℝ)
    (ctx : AdaptContext) (orc : ℕ → RandChoice)
    (prims : List SystemPrimitive) :
    ∀ (sys : CyberneticSystem) (met : CycleMetrics) (k : ℕ),
      (adaptPrims stmtContent score ctx orc prims sys met k).2.1.system_state =
        sys.system_state ∧
      (adaptPrims stmtContent score ctx orc prims sys met k).2.1.feedback_threshold =
        sys.feedback_threshold ∧
      (adaptPrims stmtContent score ctx orc prims sys met k).2.1.adaptation_cycles =
        sys.adaptation_cycles ∧
      sys.statements.length ≤
        (adaptPrims stmtContent score ctx orc prims sys met k).2.1.statements.length ∧
      (adaptPrims stmtContent score ctx orc prims sys met k).2.2.1.processed_statements =
        met.processed_statements := by
  induction prims with
  | nil =>
    intro sys met k
    simp [adaptPrims]
  | cons prim rest ih =>
    intro sys met k
    rcases hadapt : prim.adapt score ctx (orc k) with ⟨prim2, res⟩
    simp only [adaptPrims, hadapt]
    cases res with
    | none =>
      rcases hrec : adaptPrims stmtContent score ctx orc rest sys
          { met with
            adaptations := met.adaptations + 1
            primitive_metrics :=
              dictInsert met.primitive_metrics prim2.name prim2.metrics }
          (k + 1) with ⟨prims2, sys3, met3, k3⟩
      have hih := ih sys
        { met with
          adaptations := met.adaptations + 1
          primitive_metrics :=
            dictInsert met.primitive_metrics prim2.name prim2.metrics }
        (k + 1)
      rw [hrec] at hih
      simpa [hrec] using hih
    | some newContent =>
      rcases hrec : adaptPrims stmtContent score ctx orc rest
          { sys with
            statements := sys.statements ++
              [{ content := newContent
                 system_primitives :=
                   [create_primitive_for_statement newContent]
                 feedback_history := []
                 generated_from := some stmtContent }]
            new_statements := sys.new_statements ++
              [(sys.adaptation_cycles,
                { content := newContent
                  system_primitives :=
                    [create_primitive_for_statement newContent]
                  feedback_history := []
                  generated_from := some stmtContent })] }
          { met with
            adaptations := met.adaptations + 1
            primitive_metrics :=
              dictInsert met.primitive_metrics prim2.name prim2.metrics }
          (k + 1) with ⟨prims2, sys3, met3, k3⟩
      have hih := ih
        { sys with
          statements := sys.statements ++
            [{ content := newContent
               system_primitives :=
                 [create_primitive_for_statement newContent]
               feedback_history := []
               generated_from := some stmtContent }]
          new_statements := sys.new_statements ++
            [(sys.adaptation_cycles,
              { content := newContent
                system_primitives :=
                  [create_primitive_for_statement newContent]
                feedback_history := []
                generated_from := some stmtContent })] }
        { met with
          adaptations := met.adaptations + 1
          primitive_metrics :=
            dictInsert met.primitive_metrics prim2.name prim2.metrics }
        (k + 1)
      rw [hrec] at hih
      obtain ⟨h1, h2, h3, h4, h5⟩ := hih
      simp only [add_statement, hrec]
      refine ⟨by simpa using h1, by simpa using h2, by simpa using h3, ?_,
        by simpa using h5⟩
      have hlen : sys.statements.length ≤ sys.statements.length + 1 :=
        Nat.le_succ _
      simp only [List.length_append, List.length_cons, List.length_nil] at h4
      omega

theorem cycleLoop_facts (orc : ℕ → RandChoice) (snap : List Statement) :
    ∀ (i : ℕ) (sys : CyberneticSystem) (met : CycleMetrics) (totalFb : ℝ)
      (k : ℕ),
      (cycleLoop orc snap i sys met totalFb k).1.system_state =
        sys.system_state ∧
      sys.statements.length ≤
        (cycleLoop orc snap i sys met totalFb k).1.statements.length ∧
      (cycleLoop orc snap i sys met totalFb k).2.1.processed_statements =
        met.processed_statements + snap.length := by
  induction snap with
  | nil =>
    intro i sys met totalFb k
    simp [cycleLoop]
  | cons stmt rest ih =>
    intro i sys met totalFb k
    simp only [cycleLoop]
    by_cases hsc : |get_feedback_score stmt.feedback_history| >
        sys.feedback_threshold
    · rw [if_pos hsc]
      rcases hrec : adaptPrims stmt.content
          (get_feedback_score stmt.feedback_history)
          { system_state := sys.system_state, cycle := sys.adaptation_cycles }
          orc stmt.system_primitives sys met k with ⟨prims2, sys1, met1, k1⟩
      have hprims := adaptPrims_facts stmt.content
        (get_feedback_score stmt.feedback_history)
        { system_state := sys.system_state, cycle := sys.adaptation_cycles }
        orc stmt.system_primitives sys met k
      rw [hrec] at hprims
      obtain ⟨hp1, _, _, hp4, hp5⟩ := hprims
      simp only [hrec]
      have hih := ih (i + 1)
        { sys1 with statements :=
            sys1.statements.set i { stmt with system_primitives := prims2 } }
        { met1 with processed_statements := met1.processed_statements + 1 }
        (totalFb + get_feedback_score stmt.feedback_history) k1
      obtain ⟨hi1, hi2, hi3⟩ := hih
      refine ⟨by simpa using hi1.trans (by simpa using hp1), ?_, ?_⟩
      · have hsetlen : sys1.statements.length ≤
            (sys1.statements.set i
              ({ stmt with system_primitives := prims2 })).length := by
          simp [List.length_set]
        calc sys.statements.length ≤ sys1.statements.length := by simpa using hp4
          _ ≤ _ := hsetlen
          _ ≤ _ := by simpa using hi2
      · rw [hi3]
        simp only [List.length_cons]
        have : met1.processed_statements = met.processed_statements := by
          simpa using hp5
        omega
    · rw [if_neg hsc]
      have hih := ih (i + 1) sys
        { met with processed_statements := met.processed_statements + 1 }
        (totalFb + get_feedback_score stmt.feedback_history) k
      obtain ⟨hi1, hi2, hi3⟩ := hih
      refine ⟨hi1, hi2, ?_⟩
      rw [hi3]
      simp only [List.length_cons]
      omega

/-- C9: `process_feedback_cycle` iterates over the snapshot taken at
entry, so the returned `processed_statements` equals exactly the number
of statements present when the call began — statements appended to the
live collection during the same call are not processed in that cycle. -/
theorem processed_equals_entry_count (sys : CyberneticSystem)
    (orc : ℕ → RandChoice) :
    (process_feedback_cycle sys orc).2.processed_statements =
      sys.statements.length := by
  rcases hL : cycleLoop orc sys.statements 0 sys
      { processed_statements := 0
        adaptations := 0
        average_feedback := 0.0
        primitive_metrics := [] } 0.0 0 with ⟨sys1, met1, totalFb⟩
  have hfacts := cycleLoop_facts orc sys.statements 0 sys
    { processed_statements := 0
      adaptations := 0
      average_feedback := 0.0
      primitive_metrics := [] } 0.0 0
  rw [hL] at hfacts
  have hproc : met1.processed_statements = sys.statements.length := by
    simpa using hfacts.2.2
  simp only [process_feedback_cycle, hL]
  by_cases hpos : met1.processed_statements > 0
  · rw [if_pos hpos]
    simpa using hproc
  · rw [if_neg hpos]
    exact hproc

theorem setFeedbackAt_length (l : List Statement) :
    ∀ (i : ℕ) (ft : FeedbackType) (strength : ℝ),
      (setFeedbackAt l i ft strength).length = l.length := by
  induction l with
  | nil => intro i ft strength; cases i <;> simp [setFeedbackAt]
  | cons s rest ih =>
    intro i ft strength
    cases i with
    | zero => simp [setFeedbackAt]
    | succ n => simp [setFeedbackAt, ih n]

theorem reachable_empty_state (sys : CyberneticSystem) (hr : Reachable sys) :
    sys.statements = [] →
      sys.system_state.complexity = 0 ∧
        sys.system_state.adaptation_rate = 0 := by
  induction hr with
  | init =>
    intro _
    constructor <;> norm_num [initSystem]
  | add sys0 content gf _ _ =>
    intro h
    simp [add_statement] at h
  | feedback sys0 i ft strength _ ih =>
    intro h
    have hlen : sys0.statements.length = 0 := by
      have := setFeedbackAt_length sys0.statements i ft strength
      simp only [add_feedback_at] at h
      rw [h] at this
      simpa using this.symm
    have h0 : sys0.statements = [] := List.length_eq_zero.mp hlen
    simpa [add_feedback_at] using ih h0
  | cycle sys0 orc _ ih =>
    intro h
    rcases hL : cycleLoop orc sys0.statements 0 sys0
        { processed_statements := 0
          adaptations := 0
          average_feedback := 0.0
          primitive_metrics := [] } 0.0 0 with ⟨sys1, met1, totalFb⟩
    have hfacts := cycleLoop_facts orc sys0.statements 0 sys0
      { processed_statements := 0
        adaptations := 0
        average_feedback := 0.0
        primitive_metrics := [] } 0.0 0
    rw [hL] at hfacts
    have hstmts : (process_feedback_cycle sys0 orc).1.statements =
        sys1.statements := by
      simp only [process_feedback_cycle, hL]
      by_cases hpos : met1.processed_statements > 0
      · rw [if_pos hpos]
        simp [update_system_state]
      · rw [if_neg hpos]
        simp [update_system_state]
    have h1 : sys1.statements = [] := by rw [← hstmts]; exact h
    have h0 : sys0.statements = [] := by
      have hle : sys0.statements.length ≤ sys1.statements.length := by
        simpa using hfacts.2.1
      rw [h1] at hle
      exact List.length_eq_zero.mp (Nat.le_zero.mp (by simpa using hle))
    obtain ⟨hcz, hrz⟩ := ih h0
    have hL0 : cycleLoop orc sys0.statements 0 sys0
        { processed_statements := 0
          adaptations := 0
          average_feedback := 0.0
          primitive_metrics := [] } 0.0 0 =
        (sys0,
          { processed_statements := 0
            adaptations := 0
            average_feedback := 0.0
            primitive_metrics := [] }, 0.0) := by
      rw [h0]
      rfl
    simp only [process_feedback_cycle, hL0]
    rw [if_neg (by norm_num)]
    constructor
    · simp only [update_system_state]
      rw [hcz]
      norm_num
    · simp only [update_system_state]
      norm_num

/-- C7: a feedback cycle on a reachable controller whose statement
collection is empty reports zero processed statements and zero average
feedback, and leaves the system state (stability, complexity and
adaptation rate) exactly as it was. -/
theorem empty_cycle_noop (sys : CyberneticSystem) (orc : ℕ → RandChoice)
    (hr : Reachable sys) (he : sys.statements = []) :
    (process_feedback_cycle sys orc).2.processed_statements = 0 ∧
    (process_feedback_cycle sys orc).2.average_feedback = 0 ∧
    (process_feedback_cycle sys orc).1.system_state = sys.system_state := by
  obtain ⟨hcz, hrz⟩ := reachable_empty_state sys hr he
  have hL0 : cycleLoop orc sys.statements 0 sys
      { processed_statements := 0
        adaptations := 0
        average_feedback := 0.0
        primitive_metrics := [] } 0.0 0 =
      (sys,
        { processed_statements := 0
          adaptations := 0
          average_feedback := 0.0
          primitive_metrics := [] }, 0.0) := by
    rw [he]
    rfl
  simp only [process_feedback_cycle, hL0]
  rw [if_neg (by norm_num)]
  refine ⟨rfl, by norm_num, ?_⟩
  simp only [update_system_state]
  rw [if_neg (by norm_num)]
  ext
  · rfl
  · show sys.system_state.complexity * 0.9 + _ = sys.system_state.complexity
    rw [hcz]
    norm_num
  · show (((0 : ℕ) : ℝ) / _) = sys.system_state.adaptation_rate
    rw [hrz]
    norm_num

/-- Witness for C7 at the freshly constructed system. -/
theorem empty_cycle_noop_witness :
    (process_feedback_cycle initSystem (fun _ => demoRand)).2.processed_statements = 0 ∧
    (process_feedback_cycle initSystem (fun _ => demoRand)).2.average_feedback = 0 ∧
    (process_feedback_cycle initSystem (fun _ => demoRand)).1.system_state =
      initSystem.system_state :=
  empty_cycle_noop initSystem (fun _ => demoRand) Reachable.init rfl

/-- C8: after a cycle in which at least one statement was processed, the
new stability equals
`clamp(old_stability·(1 − 0.1·|average_feedback|), 0.1, 1.0)`, and when
the old stability lies in `[0.1, 1]` (as every reachable stability does)
the new stability never exceeds the old, whatever the sign of the average
feedback — the decay uses its absolute value. -/
theorem stability_decay_formula (sys : CyberneticSystem)
    (orc : ℕ → RandChoice) (hne : 0 < sys.statements.length) :
    (process_feedback_cycle sys orc).1.system_state.stability =
      max 0.1 (min 1.0 (sys.system_state.stability *
        (1 - 0.1 * |(process_feedback_cycle sys orc).2.average_feedback|))) ∧
    (0.1 ≤ sys.system_state.stability → sys.system_state.stability ≤ 1 →
      (process_feedback_cycle sys orc).1.system_state.stability ≤
        sys.system_state.stability) := by
  rcases hL : cycleLoop orc sys.statements 0 sys
      { processed_statements := 0
        adaptations := 0
        average_feedback := 0.0
        primitive_metrics := [] } 0.0 0 with ⟨sys1, met1, totalFb⟩
  have hfacts := cycleLoop_facts orc sys.statements 0 sys
    { processed_statements := 0
      adaptations := 0
      average_feedback := 0.0
      primitive_metrics := [] } 0.0 0
  rw [hL] at hfacts
  have hstate : sys1.system_state = sys.system_state := by
    simpa using hfacts.1
  have hproc : met1.processed_statements = sys.statements.length := by
    simpa using hfacts.2.2
  have hpos : met1.processed_statements > 0 := by
    rw [hproc]
    exact hne
  have hkey : (process_feedback_cycle sys orc).1.system_state.stability =
      max 0.1 (min 1.0 (sys.system_state.stability *
        (1 - 0.1 * |(process_feedback_cycle sys orc).2.average_feedback|))) := by
    simp only [process_feedback_cycle, hL]
    rw [if_pos hpos]
    simp only [update_system_state]
    rw [if_pos (by simpa using hpos)]
    rw [hstate]
  refine ⟨hkey, ?_⟩
  intro h01 h1
  rw [hkey]
  have ha : (0 : ℝ) ≤ |(process_feedback_cycle sys orc).2.average_feedback| :=
    abs_nonneg _
  have hs0 : (0 : ℝ) ≤ sys.system_state.stability := by linarith
  apply max_le (by linarith)
  calc min 1.0 (sys.system_state.stability *
        (1 - 0.1 * |(process_feedback_cycle sys orc).2.average_feedback|))
      ≤ sys.system_state.stability *
        (1 - 0.1 * |(process_feedback_cycle sys orc).2.average_feedback|) :=
        min_le_right _ _
    _ ≤ sys.system_state.stability :=
        mul_le_of_le_one_right hs0 (by linarith)

/-- Witness for C8 at a one-statement system built on the fresh system. -/
theorem stability_decay_formula_witness :
    ((process_feedback_cycle (add_statement initSystem "hello" none).1
        (fun _ => demoRand)).1.system_state.stability =
      max 0.1 (min 1.0 ((add_statement initSystem "hello" none).1.system_state.stability *
        (1 - 0.1 * |(process_feedback_cycle (add_statement initSystem "hello" none).1
          (fun _ => demoRand)).2.average_feedback|))) ∧
    (0.1 ≤ (add_statement initSystem "hello" none).1.system_state.stability →
      (add_statement initSystem "hello" none).1.system_state.stability ≤ 1 →
      (process_feedback_cycle (add_statement initSystem "hello" none).1
          (fun _ => demoRand)).1.system_state.stability ≤
        (add_statement initSystem "hello" none).1.system_state.stability)) :=
  stability_decay_formula (add_statement initSystem "hello" none).1
    (fun _ => demoRand) (by simp [add_statement, initSystem])
